import Mathlib

/-
Verification of the hades-signaling server core: a shallow embedding of the
peer registry, the peer scoring and selection engine, and the signaling relay
mailbox, together with proofs of the specified properties.

Numbers are modelled as rationals (the source arithmetic is exact on the
values that occur), timestamps as naturals, and the external key-value store
as association lists with explicit absolute expiry times. The JavaScript
falsiness idioms that matter (empty string, the `x || d` default that also
fires on 0) are modelled explicitly.
-/

namespace HadesSignaling

/-- JS truthiness of an optional string: present and nonempty. -/
abbrev truthyS (o : Option String) : Bool := decide (o.getD "" ≠ "")

/-- Embedding of the JS idiom `x || d` for an optional number `x`:
a missing value and the (falsy) value 0 both give the default. -/
def jsOptNum (x : Option ℚ) (d : ℚ) : ℚ :=
  match x with
  | none => d
  | some v => if v = 0 then d else v

/-- Embedding of `Math.min` on the numbers that occur here. -/
def jsMin (a b : ℚ) : ℚ := if a ≤ b then a else b

/-- Decimal digit character. -/
def digitChar : ℕ → Char
  | 0 => '0'
  | 1 => '1'
  | 2 => '2'
  | 3 => '3'
  | 4 => '4'
  | 5 => '5'
  | 6 => '6'
  | 7 => '7'
  | 8 => '8'
  | 9 => '9'
  | _ => '*'

/-- Fuel-driven decimal rendering (most significant digit first). -/
def natCharsGo : ℕ → ℕ → List Char
  | 0, _ => []
  | fuel + 1, n =>
    if n < 10 then [digitChar n] else natCharsGo fuel (n / 10) ++ [digitChar (n % 10)]

/-- Decimal rendering of a natural number, as in JS template interpolation
of `Date.now()`. -/
def natChars (n : ℕ) : List Char := natCharsGo (n + 1) n

/-- Value of one hex digit, as accepted by `Buffer.from(-, hex)`. -/
def hexDigitVal (c : Char) : Option ℕ :=
  if '0' ≤ c ∧ c ≤ '9' then some (c.toNat - 48)
  else if 'a' ≤ c ∧ c ≤ 'f' then some (c.toNat - 87)
  else if 'A' ≤ c ∧ c ≤ 'F' then some (c.toNat - 55)
  else none

/-- Hex decoding as performed by `Buffer.from(bitfield, hex)`: bytes are read
two digits at a time and decoding stops at the first invalid or incomplete
pair. -/
def hexDecode : List Char → List ℕ
  | c1 :: c2 :: rest =>
    match hexDigitVal c1, hexDigitVal c2 with
    | some h, some l => (16 * h + l) :: hexDecode rest
    | _, _ => []
  | _ => []

/-- Boolean prefix test on character lists (the `signal:<id>:*` pattern scan). -/
def listStartsWith : List Char → List Char → Bool
  | [], _ => true
  | _ :: _, [] => false
  | a :: as, b :: bs => a = b && listStartsWith as bs

/-! ## Data model -/

/-- Peer data stored in the registry (interface `PeerData`). -/
structure PeerData where
  peerId : String
  manifestId : String
  chunkBitfield : String
  upCap : ℚ
  region : Option String
  rttHint : Option ℚ
  version : Option String
  lastSeen : ℕ
  isComplete : Bool
deriving DecidableEq, Repr

/-- The named factor breakdown produced by `scorePeer`. -/
structure ScoreFactors where
  hasNeeded : ℚ
  region : ℚ
  latency : ℚ
  capacity : ℚ
  completion : ℚ
deriving DecidableEq, Repr

/-- Peer scoring result (interface `PeerScore`). -/
structure PeerScore where
  peerId : String
  score : ℚ
  factors : ScoreFactors
  hasNeeded : Bool
deriving DecidableEq, Repr

/-- Peer info returned to clients (interface `PeerInfo`). -/
structure PeerInfo where
  peerId : String
  chunkBitfield : String
  region : Option String
  score : ℚ
deriving DecidableEq, Repr

/-- A WebRTC signaling message as stored by the relay. -/
structure SignalMessage where
  type : String
  «from» : String
  «to» : String
  data : Option String
  timestamp : ℕ
deriving DecidableEq, Repr

/-! ## Requests, responses and errors -/

structure AnnounceRequest where
  clientId : Option String
  manifestId : Option String
  chunkBitfield : Option String
  upCap : Option ℚ
  region : Option String
  rttHint : Option ℚ
  version : Option String
deriving DecidableEq, Repr

structure AnnounceResponse where
  success : Bool
  peerId : String
  ttl : ℕ
deriving DecidableEq, Repr

structure GetPeersRequest where
  manifestId : Option String
  neededChunks : Option (List ℕ)
  region : Option String
  excludePeers : Option (List String)
deriving DecidableEq, Repr

structure GetPeersResponse where
  peers : List PeerInfo
  count : ℕ
deriving DecidableEq, Repr

structure CompleteRequest where
  clientId : Option String
  manifestId : Option String
deriving DecidableEq, Repr

structure SignalRequest where
  type : Option String
  «to» : Option String
  data : Option String
deriving DecidableEq, Repr

/-- The error classes of the HTTP handlers (400, 404, 500). -/
inductive ApiError where
  | invalidRequest
  | notFound
  | internalError
deriving DecidableEq, Repr

/-- Environment configuration: `PEER_TTL` (default 300 s) and
`MAX_PEERS_RESPONSE` (default 6). -/
structure Config where
  PEER_TTL : ℕ := 300
  MAX_PEERS_RESPONSE : ℕ := 6
deriving DecidableEq, Repr

def defaultConfig : Config := {}

/-! ## The external key-value store -/

/-- Association-list get: the value stored under a key. -/
def alGet {κ ν : Type} [DecidableEq κ] : List (κ × ν) → κ → Option ν
  | [], _ => none
  | (k', v) :: t, k => if k' = k then some v else alGet t k

/-- Association-list set: replace the first binding of the key, or append. -/
def alSet {κ ν : Type} [DecidableEq κ] : List (κ × ν) → κ → ν → List (κ × ν)
  | [], k, v => [(k, v)]
  | (k', v') :: t, k, v => if k' = k then (k, v) :: t else (k', v') :: alSet t k v

/-- Association-list delete: remove every binding of the key. -/
def alDel {κ ν : Type} [DecidableEq κ] (l : List (κ × ν)) (k : κ) : List (κ × ν) :=
  l.filter (fun e => decide (e.1 ≠ k))

/-- A manifest membership set: its members and, when one has been assigned,
its absolute expiry time (none models a set created by `sadd` with no TTL). -/
structure SetData where
  members : List String
  expiry : Option ℕ
deriving DecidableEq, Repr

/-- The Redis state used by the service: peer records keyed by
(manifestId, peerId) with absolute expiry, membership sets keyed by
manifestId, and pending signal messages keyed by their full key string. -/
structure Store where
  records : List ((String × String) × (PeerData × ℕ))
  sets : List (String × SetData)
  signals : List (List Char × (SignalMessage × ℕ))
deriving DecidableEq, Repr

def emptyStore : Store := { records := [], sets := [], signals := [] }

/-- `redis.get` on a peer record key: the value if present and unexpired. -/
def getRecord (st : Store) (m p : String) (now : ℕ) : Option PeerData :=
  match alGet st.records (m, p) with
  | some (pd, e) => if now < e then some pd else none
  | none => none

/-- `redis.setex` on a peer record key. -/
def setRecord (st : Store) (m p : String) (pd : PeerData) (exp : ℕ) : Store :=
  { st with records := alSet st.records (m, p) (pd, exp) }

/-- The live membership set of a manifest, if any; a set with no assigned
expiry never expires. -/
def getSetLive (st : Store) (m : String) (now : ℕ) : Option SetData :=
  match alGet st.sets m with
  | some s =>
    match s.expiry with
    | some e => if now < e then some s else none
    | none => some s
  | none => none

/-- `redis.sadd`: add to a live set (no-op when already a member, the expiry
is untouched); a missing or expired set is recreated with no expiry. -/
def sadd (st : Store) (m p : String) (now : ℕ) : Store :=
  match getSetLive st m now with
  | some s =>
    if p ∈ s.members then st
    else { st with sets := alSet st.sets m { s with members := s.members ++ [p] } }
  | none => { st with sets := alSet st.sets m { members := [p], expiry := none } }

/-- `redis.ttl` on a set key: -2 when missing or expired, -1 when it has no
expiry, otherwise the remaining time. -/
def ttlCmd (st : Store) (m : String) (now : ℕ) : ℤ :=
  match getSetLive st m now with
  | some s =>
    match s.expiry with
    | some e => (e : ℤ) - (now : ℤ)
    | none => -1
  | none => -2

/-- `redis.expire` on a set key: assign an expiry to a live set. -/
def expireCmd (st : Store) (m : String) (now ttl : ℕ) : Store :=
  match getSetLive st m now with
  | some s => { st with sets := alSet st.sets m { s with expiry := some (now + ttl) } }
  | none => st

/-- `redis.srem`: remove a member from a live set. -/
def srem (st : Store) (m p : String) (now : ℕ) : Store :=
  match getSetLive st m now with
  | some s => { st with sets := alSet st.sets m { s with members := s.members.erase p } }
  | none => st

/-- `redis.smembers`: the members of a live set, else the empty list. -/
def smembers (st : Store) (m : String) (now : ℕ) : List String :=
  match getSetLive st m now with
  | some s => s.members
  | none => []

/-- The remaining time-to-live of a manifest membership set (0 when the set
is missing, expired, or has no finite expiry assigned). -/
def remainingTTL (st : Store) (m : String) (now : ℕ) : ℕ :=
  match getSetLive st m now with
  | some s =>
    match s.expiry with
    | some e => e - now
    | none => 0
  | none => 0

/-! ## Peer scoring (services/peer-scoring.ts) -/

/-- Does the hex bitfield have at least one of the needed chunks? Chunk
index c maps to byte c / 8, bit c % 8; an index beyond the decoded length
counts as not held; an empty bitfield or an empty needed list gives false. -/
def hasNeededChunks (bitfield : String) (neededChunks : List ℕ) : Bool :=
  if bitfield = "" ∨ neededChunks = [] then false
  else
    let bytes := hexDecode bitfield.data
    neededChunks.any fun chunkIndex =>
      let byteIndex := chunkIndex / 8
      let bitIndex := chunkIndex % 8
      decide (byteIndex < bytes.length) && Nat.testBit (bytes.getD byteIndex 0) bitIndex

/-- Latency band score: lower RTT gives a higher score. -/
def calculateLatencyScore (rtt : ℚ) : ℚ :=
  if rtt < 50 then 30 else if rtt < 100 then 20 else if rtt < 200 then 10 else 5

/-- Score a peer for a request: need match (0 or 100), region affinity
(0, 10 or 30), latency band (5 to 30, a missing or zero rttHint counts as
999 ms), upload capacity (bytes/s scaled to MiB/s, clamped at 20), and
completion bonus (0 or 20); the total is their sum. -/
def scorePeer (peer : PeerData) (neededChunks : List ℕ)
    (requesterRegion : Option String) : PeerScore :=
  let hasNeeded := hasNeededChunks peer.chunkBitfield neededChunks
  let neededScore : ℚ := if hasNeeded then 100 else 0
  let regionScore : ℚ :=
    if truthyS requesterRegion ∧ peer.region = requesterRegion then 30
    else if truthyS peer.region then 10
    else 0
  let latencyScore : ℚ := calculateLatencyScore (jsOptNum peer.rttHint 999)
  let capacityScore : ℚ := jsMin (jsOptNum (some peer.upCap) 0 / 1024 / 1024) 20
  let completionScore : ℚ := if peer.isComplete then 20 else 0
  { peerId := peer.peerId
    score := neededScore + regionScore + latencyScore + capacityScore + completionScore
    factors :=
      { hasNeeded := neededScore, region := regionScore, latency := latencyScore
        capacity := capacityScore, completion := completionScore }
    hasNeeded := hasNeeded }

/-- Descending order on scores, the comparator of `sortPeersByScore`. -/
def scoreGE (a b : PeerScore) : Prop := b.score ≤ a.score

instance : DecidableRel scoreGE := fun a b => inferInstanceAs (Decidable (b.score ≤ a.score))

instance : IsTotal PeerScore scoreGE := ⟨fun a b => le_total b.score a.score⟩

instance : IsTrans PeerScore scoreGE := ⟨fun _ _ _ h1 h2 => le_trans h2 h1⟩

/-- Sort peers by score, highest first. -/
def sortPeersByScore (scores : List PeerScore) : List PeerScore :=
  scores.insertionSort scoreGE

/-! ## The HTTP handlers (routes/signaling.ts), as store transformers -/

/-- POST /announce: validate, store the peer record with the standard TTL
(the record is rebuilt from the request, with isComplete false), add the
peer to the membership set, and extend the set expiry when the current one
is missing or shorter. -/
def announce (cfg : Config) (st : Store) (now : ℕ) (req : AnnounceRequest) :
    Store × Except ApiError AnnounceResponse :=
  if ¬ (truthyS req.clientId ∧ truthyS req.manifestId ∧ truthyS req.chunkBitfield) then
    (st, .error .invalidRequest)
  else
    let peerId := req.clientId.getD ""
    let manifestId := req.manifestId.getD ""
    let peerData : PeerData :=
      { peerId := peerId
        manifestId := manifestId
        chunkBitfield := req.chunkBitfield.getD ""
        upCap := jsOptNum req.upCap 0
        region := req.region
        rttHint := req.rttHint
        version := req.version
        lastSeen := now
        isComplete := false }
    let st1 := setRecord st manifestId peerId peerData (now + cfg.PEER_TTL)
    let st2 := sadd st1 manifestId peerId now
    let currentTTL := ttlCmd st2 manifestId now
    let st3 :=
      if currentTTL = -1 ∨ currentTTL < (cfg.PEER_TTL : ℤ) then
        expireCmd st2 manifestId now cfg.PEER_TTL
      else st2
    (st3, .ok { success := true, peerId := peerId, ttl := cfg.PEER_TTL })

/-- The fetch-and-prune loop of POST /peers: read each candidate record;
a missing or expired record is pruned from the membership set and omitted. -/
def fetchLoop (m : String) (now : ℕ) : Store → List String → Store × List PeerData
  | st, [] => (st, [])
  | st, pid :: rest =>
    match getRecord st m pid now with
    | some pd =>
      let r := fetchLoop m now st rest
      (r.1, pd :: r.2)
    | none => fetchLoop m now (srem st m pid now) rest

/-- Project each surviving score back onto its record (the final map of
POST /peers); a score whose record cannot be found aborts the handler. -/
def projectPeers (peersData : List PeerData) : List PeerScore → Option (List PeerInfo)
  | [] => some []
  | sc :: rest =>
    match peersData.find? (fun p => p.peerId == sc.peerId), projectPeers peersData rest with
    | some peer, some infos =>
      some ({ peerId := peer.peerId, chunkBitfield := peer.chunkBitfield
              region := peer.region, score := sc.score } :: infos)
    | _, _ => none

/-- POST /peers: list members, drop excluded ids, fetch live records with
lazy pruning, score, sort descending, truncate to the configured maximum and
project back to peer descriptors. -/
def getPeers (cfg : Config) (st : Store) (now : ℕ) (req : GetPeersRequest) :
    Store × Except ApiError GetPeersResponse :=
  if ¬ (truthyS req.manifestId ∧ req.neededChunks.isSome) then
    (st, .error .invalidRequest)
  else
    let manifestId := req.manifestId.getD ""
    let neededChunks := req.neededChunks.getD []
    let excludePeers := req.excludePeers.getD []
    let peerIds := smembers st manifestId now
    if peerIds = [] then (st, .ok { peers := [], count := 0 })
    else
      let filtered := peerIds.filter fun pid => decide (¬ pid ∈ excludePeers)
      let r := fetchLoop manifestId now st filtered
      let peersData := r.2
      let scores := peersData.map fun peer => scorePeer peer neededChunks req.region
      let sortedScores := sortPeersByScore scores
      let topPeers := sortedScores.take cfg.MAX_PEERS_RESPONSE
      match projectPeers peersData topPeers with
      | some peers => (r.1, .ok { peers := peers, count := peers.length })
      | none => (r.1, .error .internalError)

/-- POST /complete: validate, read the record (NotFound when absent or
expired), set isComplete, refresh lastSeen and rewrite with the standard
TTL. -/
def complete (cfg : Config) (st : Store) (now : ℕ) (req : CompleteRequest) :
    Store × Except ApiError Bool :=
  if ¬ (truthyS req.clientId ∧ truthyS req.manifestId) then
    (st, .error .invalidRequest)
  else
    let peerId := req.clientId.getD ""
    let manifestId := req.manifestId.getD ""
    match getRecord st manifestId peerId now with
    | none => (st, .error .notFound)
    | some pd =>
      let pd' := { pd with isComplete := true, lastSeen := now }
      (setRecord st manifestId peerId pd' (now + cfg.PEER_TTL), .ok true)

/-- The key under which POST /signal stores a message:
signal:(to):(from):(timestamp). -/
def signalKeyOf (recipient sender : String) (ts : ℕ) : List Char :=
  "signal:".data ++ recipient.data ++ [':'] ++ sender.data ++ [':'] ++ natChars ts

/-- POST /signal: validate type and to, then store the message under its
(recipient, sender, timestamp) key with a 30 second TTL. The sender id comes
from the authenticated request, the payload is not validated. -/
def signalOp (st : Store) (now : ℕ) (sender : String) (req : SignalRequest) :
    Store × Except ApiError Bool :=
  if ¬ (truthyS req.type ∧ truthyS req.«to») then
    (st, .error .invalidRequest)
  else
    let type := req.type.getD ""
    let recipient := req.«to».getD ""
    if ¬ type ∈ ["offer", "answer", "ice-candidate"] then
      (st, .error .invalidRequest)
    else
      let key := signalKeyOf recipient sender now
      let msg : SignalMessage :=
        { type := type, «from» := sender, «to» := recipient, data := req.data
          timestamp := now }
      ({ st with signals := alSet st.signals key (msg, now + 30) }, .ok true)

/-- The read-and-delete loop of GET /signals/:clientId over the keys found
by the pattern scan: a key whose value is gone is skipped. -/
def drainLoop (now : ℕ) : Store → List (List Char) → Store × List SignalMessage
  | st, [] => (st, [])
  | st, k :: rest =>
    match alGet st.signals k with
    | some (msg, e) =>
      if now < e then
        let r := drainLoop now { st with signals := alDel st.signals k } rest
        (r.1, msg :: r.2)
      else drainLoop now st rest
    | none => drainLoop now st rest

/-- GET /signals/:clientId: scan for live keys with the signal:(clientId):
pattern, read each message, delete it, and return the collected messages. -/
def pollSignals (st : Store) (now : ℕ) (clientId : String) :
    Store × Except ApiError (List SignalMessage) :=
  if clientId = "" then (st, .error .invalidRequest)
  else
    let pat := "signal:".data ++ clientId.data ++ [':']
    let keys :=
      (st.signals.filter fun e => listStartsWith pat e.1 && decide (now < e.2.2)).map (·.1)
    let r := drainLoop now st keys
    (r.1, .ok r.2)

/-! ## Concrete fixtures used by witnesses and counterexamples -/

/-- A baseline peer record. -/
def pdBase : PeerData :=
  { peerId := "a", manifestId := "m", chunkBitfield := "01", upCap := 0,
    region := none, rttHint := none, version := none, lastSeen := 0,
    isComplete := false }

/-- A stored record that is already marked complete. -/
def pdSeed : PeerData :=
  { pdBase with peerId := "p", chunkBitfield := "ff", isComplete := true }

/-- A store holding the complete peer p of manifest m, record and membership
both live until time 100. -/
def stSeed : Store :=
  { records := [(("m", "p"), (pdSeed, 100))]
    sets := [("m", { members := ["p"], expiry := some 100 })]
    signals := [] }

/-- A store for the selection witness: one live peer a and one stale
member x of manifest m. -/
def stSel : Store :=
  { records := [(("m", "a"), (pdBase, 100))]
    sets := [("m", { members := ["a", "b", "x"], expiry := some 100 })]
    signals := [] }

def reqSel : GetPeersRequest :=
  { manifestId := some "m", neededChunks := some [0], region := none,
    excludePeers := some ["b"] }

def reqSeed : AnnounceRequest :=
  { clientId := some "p", manifestId := some "m", chunkBitfield := some "ff",
    upCap := none, region := none, rttHint := none, version := none }

/-- The response the selection witness expects. -/
def respSel : GetPeersResponse :=
  { peers := [{ peerId := "a", chunkBitfield := "01", region := none,
                score := (scorePeer pdBase [0] none).score }]
    count := 1 }

/-! ## Association list lemmas -/

theorem alGet_alSet_self {κ ν : Type} [DecidableEq κ] (l : List (κ × ν)) (k : κ) (v : ν) :
    alGet (alSet l k v) k = some v := by
  induction l with
  | nil => simp [alGet, alSet]
  | cons e t ih =>
    obtain ⟨k', v'⟩ := e
    by_cases h : k' = k
    · simp [alGet, alSet, h]
    · simp [alGet, alSet, h, ih]

theorem alGet_alSet_ne {κ ν : Type} [DecidableEq κ] (l : List (κ × ν)) (k : κ) (v : ν)
    (k' : κ) (h : k' ≠ k) : alGet (alSet l k v) k' = alGet l k' := by
  induction l with
  | nil =>
    simp only [alSet, alGet]
    rw [if_neg (fun hh => h hh.symm)]
  | cons e t ih =>
    obtain ⟨k0, v0⟩ := e
    by_cases h0 : k0 = k
    · subst h0
      simp only [alSet, if_pos rfl, alGet]
      rw [if_neg (fun hh => h hh.symm), if_neg (fun hh => h hh.symm)]
    · simp only [alSet, if_neg h0, alGet]
      by_cases h1 : k0 = k'
      · rw [if_pos h1, if_pos h1]
      · rw [if_neg h1, if_neg h1, ih]

theorem mem_alSet {κ ν : Type} [DecidableEq κ] {l : List (κ × ν)} {k : κ} {v : ν}
    {e : κ × ν} (h : e ∈ alSet l k v) : e = (k, v) ∨ e ∈ l := by
  induction l with
  | nil => simpa [alSet] using h
  | cons e0 t ih =>
    obtain ⟨k0, v0⟩ := e0
    by_cases h0 : k0 = k
    · simp only [alSet, if_pos h0] at h
      rcases List.mem_cons.1 h with h | h
      · exact Or.inl h
      · exact Or.inr (List.mem_cons_of_mem _ h)
    · simp only [alSet, if_neg h0] at h
      rcases List.mem_cons.1 h with h | h
      · exact Or.inr (h ▸ List.mem_cons_self _ _)
      · rcases ih h with h | h
        · exact Or.inl h
        · exact Or.inr (List.mem_cons_of_mem _ h)

/-- One binding of the key survives in `alSet`. -/
theorem alSet_filter_eq {κ ν : Type} [DecidableEq κ] (p : κ × ν → Bool)
    (l : List (κ × ν)) (k : κ) (v : ν) (hl : ∀ e ∈ l, p e = false)
    (hk : p (k, v) = true) : (alSet l k v).filter p = [(k, v)] := by
  induction l with
  | nil => simp [alSet, hk]
  | cons e0 t ih =>
    obtain ⟨k0, v0⟩ := e0
    have ht : ∀ e ∈ t, p e = false := fun e he => hl e (List.mem_cons_of_mem _ he)
    have hnil : List.filter p t = [] :=
      List.filter_eq_nil_iff.mpr (fun e he => by rw [ht e he]; exact Bool.false_ne_true)
    by_cases h0 : k0 = k
    · subst h0
      simp [alSet, List.filter_cons, hk, hnil]
    · have h0p : p (k0, v0) = false := hl _ (List.mem_cons_self _ _)
      simp [alSet, h0, List.filter_cons, h0p, ih ht]

/-! ## Decimal rendering lemmas -/

theorem digitChar_ne_colon (d : ℕ) : digitChar d ≠ ':' := by
  unfold digitChar
  split <;> decide

theorem digitChar_inj {d1 d2 : ℕ} (h1 : d1 < 10) (h2 : d2 < 10)
    (h : digitChar d1 = digitChar d2) : d1 = d2 := by
  have key : ∀ a b : Fin 10, digitChar a.val = digitChar b.val → a = b := by decide
  have := key ⟨d1, h1⟩ ⟨d2, h2⟩ h
  exact congrArg Fin.val this

theorem natCharsGo_congr :
    ∀ n f1 f2, n < f1 → n < f2 → natCharsGo f1 n = natCharsGo f2 n := by
  intro n
  induction n using Nat.strong_induction_on with
  | _ n ih =>
    intro f1 f2 h1 h2
    match f1, f2 with
    | fa + 1, fb + 1 =>
      by_cases h : n < 10
      · simp [natCharsGo, h]
      · have hd : n / 10 < n := Nat.div_lt_self (by omega) (by omega)
        simp only [natCharsGo, if_neg h]
        rw [ih (n / 10) hd fa fb (by omega) (by omega)]

theorem natChars_eq (n : ℕ) :
    natChars n = if n < 10 then [digitChar n] else natChars (n / 10) ++ [digitChar (n % 10)] := by
  by_cases h : n < 10
  · rw [if_pos h]
    show natCharsGo (n + 1) n = _
    simp only [natCharsGo, if_pos h]
  · rw [if_neg h]
    show natCharsGo (n + 1) n = natChars (n / 10) ++ [digitChar (n % 10)]
    simp only [natCharsGo, if_neg h]
    congr 1
    exact natCharsGo_congr (n / 10) n (n / 10 + 1)
      (Nat.div_lt_self (by omega) (by omega)) (by omega)

theorem natChars_ne_nil (n : ℕ) : natChars n ≠ [] := by
  rw [natChars_eq]
  split <;> simp

theorem natChars_no_colon (n : ℕ) : ∀ c ∈ natChars n, c ≠ ':' := by
  induction n using Nat.strong_induction_on with
  | _ n ih =>
    intro c hc
    rw [natChars_eq] at hc
    by_cases h : n < 10
    · rw [if_pos h] at hc
      simp only [List.mem_singleton] at hc
      exact hc ▸ digitChar_ne_colon n
    · rw [if_neg h] at hc
      have hd : n / 10 < n := Nat.div_lt_self (by omega) (by omega)
      rcases List.mem_append.1 hc with hc | hc
      · exact ih (n / 10) hd c hc
      · simp only [List.mem_singleton] at hc
        exact hc ▸ digitChar_ne_colon (n % 10)

theorem natChars_inj : ∀ m n : ℕ, natChars m = natChars n → m = n := by
  intro m
  induction m using Nat.strong_induction_on with
  | _ m ih =>
    intro n h
    rw [natChars_eq m, natChars_eq n] at h
    by_cases hm : m < 10 <;> by_cases hn : n < 10
    · rw [if_pos hm, if_pos hn] at h
      exact digitChar_inj hm hn (List.singleton_inj.1 h)
    · rw [if_pos hm, if_neg hn] at h
      have := congrArg List.length h
      simp at this
      exact absurd this (natChars_ne_nil (n / 10))
    · rw [if_neg hm, if_pos hn] at h
      have := congrArg List.length h
      simp at this
      exact absurd this (natChars_ne_nil (m / 10))
    · rw [if_neg hm, if_neg hn] at h
      have hrev := congrArg List.reverse h
      simp only [List.reverse_append, List.reverse_singleton, List.singleton_append,
        List.cons.injEq, List.reverse_inj] at hrev
      have hdig : m % 10 = n % 10 :=
        digitChar_inj (Nat.mod_lt _ (by omega)) (Nat.mod_lt _ (by omega)) hrev.1
      have hdiv : m / 10 = n / 10 :=
        ih (m / 10) (Nat.div_lt_self (by omega) (by omega)) (n / 10) hrev.2
      omega

/-! ## Colon splitting and signal key injectivity -/

theorem append_colon_inj :
    ∀ l1 l2 r1 r2 : List Char, ':' ∉ l1 → ':' ∉ l2 →
      l1 ++ ':' :: r1 = l2 ++ ':' :: r2 → l1 = l2 ∧ r1 = r2 := by
  intro l1
  induction l1 with
  | nil =>
    intro l2 r1 r2 _ h2 h
    cases l2 with
    | nil => simpa using h
    | cons c t =>
      simp only [List.nil_append, List.cons_append, List.cons.injEq] at h
      exact absurd (h.1 ▸ List.mem_cons_self c t) h2
  | cons c t ih =>
    intro l2 r1 r2 h1 h2 h
    cases l2 with
    | nil =>
      simp only [List.nil_append, List.cons_append, List.cons.injEq] at h
      exact absurd (h.1 ▸ List.mem_cons_self c t) h1
    | cons c2 t2 =>
      simp only [List.cons_append, List.cons.injEq] at h
      have := ih t2 r1 r2 (fun hm => h1 (List.mem_cons_of_mem _ hm))
        (fun hm => h2 (List.mem_cons_of_mem _ hm)) h.2
      exact ⟨by rw [h.1, this.1], this.2⟩

/-- Splitting at the last colon: if the parts after the colon are colon-free,
both components are determined. -/
theorem colon_last_inj (a b r1 r2 : List Char) (h1 : ':' ∉ r1) (h2 : ':' ∉ r2)
    (h : a ++ ':' :: r1 = b ++ ':' :: r2) : a = b ∧ r1 = r2 := by
  have hrev := congrArg List.reverse h
  simp only [List.reverse_append, List.reverse_cons, List.append_assoc,
    List.singleton_append] at hrev
  have := append_colon_inj r1.reverse r2.reverse a.reverse b.reverse
    (by simpa using h1) (by simpa using h2) hrev
  exact ⟨List.reverse_inj.1 this.2, List.reverse_inj.1 this.1⟩

/-- For a fixed recipient, the signal key determines the sender and the
timestamp. -/
theorem signalKeyOf_inj {recipient f1 f2 : String} {t1 t2 : ℕ}
    (h : signalKeyOf recipient f1 t1 = signalKeyOf recipient f2 t2) :
    f1 = f2 ∧ t1 = t2 := by
  unfold signalKeyOf at h
  simp only [List.append_assoc, List.singleton_append] at h
  have h1 := List.append_cancel_left h
  have h2 := List.append_cancel_left h1
  injection h2 with hhead htail
  have := colon_last_inj f1.data f2.data (natChars t1) (natChars t2)
    (fun hm => natChars_no_colon t1 ':' hm rfl)
    (fun hm => natChars_no_colon t2 ':' hm rfl) htail
  exact ⟨String.ext this.1, natChars_inj t1 t2 this.2⟩

/-! ## Store component lemmas -/

theorem srem_records (st : Store) (m p : String) (now : ℕ) :
    (srem st m p now).records = st.records := by
  unfold srem; split <;> rfl

theorem srem_signals (st : Store) (m p : String) (now : ℕ) :
    (srem st m p now).signals = st.signals := by
  unfold srem; split <;> rfl

theorem sadd_records (st : Store) (m p : String) (now : ℕ) :
    (sadd st m p now).records = st.records := by
  unfold sadd; split
  · split <;> rfl
  · rfl

theorem sadd_signals (st : Store) (m p : String) (now : ℕ) :
    (sadd st m p now).signals = st.signals := by
  unfold sadd; split
  · split <;> rfl
  · rfl

theorem expireCmd_records (st : Store) (m : String) (now ttl : ℕ) :
    (expireCmd st m now ttl).records = st.records := by
  unfold expireCmd; split <;> rfl

theorem expireCmd_signals (st : Store) (m : String) (now ttl : ℕ) :
    (expireCmd st m now ttl).signals = st.signals := by
  unfold expireCmd; split <;> rfl

theorem getRecord_eq_of_records {st1 st2 : Store} (h : st1.records = st2.records)
    (m p : String) (now : ℕ) : getRecord st1 m p now = getRecord st2 m p now := by
  unfold getRecord; rw [h]

theorem getSetLive_eq_of_sets {st1 st2 : Store} (h : st1.sets = st2.sets)
    (m : String) (now : ℕ) : getSetLive st1 m now = getSetLive st2 m now := by
  unfold getSetLive; rw [h]

/-! ## Fetch loop lemmas -/

theorem fetchLoop_records (m : String) (now : ℕ) :
    ∀ (ids : List String) (st : Store), (fetchLoop m now st ids).1.records = st.records := by
  intro ids
  induction ids with
  | nil => intro st; rfl
  | cons pid rest ih =>
    intro st
    unfold fetchLoop
    cases h : getRecord st m pid now with
    | some pd => simpa using ih st
    | none => simpa using (ih (srem st m pid now)).trans (srem_records st m pid now)

theorem fetchLoop_mem (m : String) (now : ℕ) :
    ∀ (ids : List String) (st : Store) (pd : PeerData), pd ∈ (fetchLoop m now st ids).2 →
      ∃ pid ∈ ids, getRecord st m pid now = some pd := by
  intro ids
  induction ids with
  | nil => intro st pd h; simp [fetchLoop] at h
  | cons pid rest ih =>
    intro st pd h
    unfold fetchLoop at h
    cases hr : getRecord st m pid now with
    | some pd0 =>
      rw [hr] at h
      simp only [List.mem_cons] at h
      rcases h with h | h
      · exact ⟨pid, List.mem_cons_self _ _, h ▸ hr⟩
      · obtain ⟨pid', hmem, hget⟩ := ih st pd h
        exact ⟨pid', List.mem_cons_of_mem _ hmem, hget⟩
    | none =>
      rw [hr] at h
      obtain ⟨pid', hmem, hget⟩ := ih (srem st m pid now) pd h
      rw [getRecord_eq_of_records (srem_records st m pid now)] at hget
      exact ⟨pid', List.mem_cons_of_mem _ hmem, hget⟩

/-! ## Projection lemmas -/

theorem projectPeers_map_score (pda : List PeerData) :
    ∀ (scs : List PeerScore) (infos : List PeerInfo), projectPeers pda scs = some infos →
      infos.map (·.score) = scs.map (·.score) := by
  intro scs
  induction scs with
  | nil => intro infos h; simp [projectPeers] at h; simp [← h]
  | cons sc rest ih =>
    intro infos h
    unfold projectPeers at h
    cases hf : pda.find? (fun p => p.peerId == sc.peerId) with
    | none => rw [hf] at h; simp at h
    | some peer =>
      cases hr : projectPeers pda rest with
      | none => rw [hf, hr] at h; simp at h
      | some infos' =>
        rw [hf, hr] at h
        simp only [Option.some.injEq] at h
        rw [← h]
        simp [ih infos' hr]

theorem projectPeers_mem (pda : List PeerData) :
    ∀ (scs : List PeerScore) (infos : List PeerInfo), projectPeers pda scs = some infos →
      ∀ i ∈ infos, ∃ pd ∈ pda, i.peerId = pd.peerId := by
  intro scs
  induction scs with
  | nil =>
    intro infos h
    simp only [projectPeers, Option.some.injEq] at h
    subst h
    simp
  | cons sc rest ih =>
    intro infos h
    unfold projectPeers at h
    cases hf : pda.find? (fun p => p.peerId == sc.peerId) with
    | none => rw [hf] at h; simp at h
    | some peer =>
      cases hr : projectPeers pda rest with
      | none => rw [hf, hr] at h; simp at h
      | some infos' =>
        rw [hf, hr] at h
        simp only [Option.some.injEq] at h
        rw [← h]
        intro i hi
        simp only [List.mem_cons] at hi
        rcases hi with hi | hi
        · exact ⟨peer, List.mem_of_find?_eq_some hf, by rw [hi]⟩
        · exact ih infos' hr i hi

/-! ## Sorting lemmas -/

theorem sortPeersByScore_sorted (scs : List PeerScore) :
    (sortPeersByScore scs).Pairwise scoreGE :=
  List.sorted_insertionSort scoreGE scs

theorem mem_sortPeersByScore {a : PeerScore} {scs : List PeerScore} :
    a ∈ sortPeersByScore scs ↔ a ∈ scs :=
  (List.perm_insertionSort scoreGE scs).mem_iff

/-! ## Scoring lemmas -/

theorem calculateLatencyScore_antitone {r1 r2 : ℚ} (h : r1 ≤ r2) :
    calculateLatencyScore r2 ≤ calculateLatencyScore r1 := by
  unfold calculateLatencyScore
  split_ifs <;> linarith

theorem calculateLatencyScore_bounds (r : ℚ) :
    5 ≤ calculateLatencyScore r ∧ calculateLatencyScore r ≤ 30 := by
  unfold calculateLatencyScore
  split_ifs <;> norm_num

/-- The normal form of `hasNeededChunks` on a single chunk index. -/
theorem hasNeededChunks_single (b : String) (c : ℕ) :
    hasNeededChunks b [c] =
      (decide (c / 8 < (hexDecode b.data).length) &&
        Nat.testBit ((hexDecode b.data).getD (c / 8) 0) (c % 8)) := by
  unfold hasNeededChunks
  by_cases hb : b = ""
  · rw [if_pos (Or.inl hb)]
    have hd : hexDecode b.data = [] := by subst hb; rfl
    simp [hd]
  · rw [if_neg (by simp [hb])]
    simp [List.any_cons]

/-- C1: for every hex bitfield b and chunk index c, hasNeededChunks b [c]
is true iff bit c mod 8 (little-endian in the byte) of byte c / 8 of the
decoded bitfield is set, and it is false whenever c / 8 is at least the
decoded byte length. -/
theorem C1_bitfield_single_bit (b : String) (c : ℕ) :
    (hasNeededChunks b [c] = true ↔
      c / 8 < (hexDecode b.data).length ∧
        Nat.testBit ((hexDecode b.data).getD (c / 8) 0) (c % 8) = true) ∧
    ((hexDecode b.data).length ≤ c / 8 → hasNeededChunks b [c] = false) := by
  constructor
  · rw [hasNeededChunks_single]
    simp [Bool.and_eq_true, decide_eq_true_iff]
  · intro hle
    rw [hasNeededChunks_single]
    have : decide (c / 8 < (hexDecode b.data).length) = false := by
      simp only [decide_eq_false_iff_not]
      omega
    simp [this]

/-- Witness for C1 at b = 01, c = 8: the index is beyond the single decoded
byte, so the peer does not count as holding it. -/
theorem C1_witness :
    (hexDecode (String.data "01")).length ≤ 8 / 8 ∧ hasNeededChunks "01" [8] = false :=
  ⟨by decide, (C1_bitfield_single_bit "01" 8).2 (by decide)⟩

/-- C2 counterexample: with every other field fixed, rttHint = 0 scores
strictly below rttHint = 1 (the source treats the falsy value 0 like a
missing hint, i.e. as 999 ms), refuting monotone non-increase on all
non-negative rtt values at r1 = 0, r2 = 1. -/
theorem C2_counterexample :
    ¬ ((scorePeer { pdBase with rttHint := some 1 } [] none).score ≤
        (scorePeer { pdBase with rttHint := some 0 } [] none).score) := by
  norm_num [scorePeer, pdBase, hasNeededChunks, jsOptNum, jsMin, calculateLatencyScore, truthyS]

/-- C2 (amended): with all other fields fixed, the total score is monotone
non-increasing in rttHint over positive rtt values (rttHint = 0 is conflated
with a missing hint and scored as 999 ms), a missing rttHint is scored
exactly like 999 ms, and the score is monotone non-decreasing in upCap. -/
theorem C2_score_monotonicity (peer : PeerData) (needed : List ℕ) (reg : Option String) :
    (∀ r1 r2 : ℚ, 0 < r1 → r1 ≤ r2 →
      (scorePeer { peer with rttHint := some r2 } needed reg).score ≤
        (scorePeer { peer with rttHint := some r1 } needed reg).score) ∧
    (scorePeer { peer with rttHint := none } needed reg).score =
      (scorePeer { peer with rttHint := some 999 } needed reg).score ∧
    (∀ u1 u2 : ℚ, u1 ≤ u2 →
      (scorePeer { peer with upCap := u1 } needed reg).score ≤
        (scorePeer { peer with upCap := u2 } needed reg).score) := by
  refine ⟨?_, ?_, ?_⟩
  · intro r1 r2 h0 h12
    have hne1 : ¬ r1 = 0 := by intro h; rw [h] at h0; exact lt_irrefl 0 h0
    have hne2 : ¬ r2 = 0 := by intro h; rw [h] at h12; nlinarith
    simp only [scorePeer, jsOptNum]
    rw [if_neg hne1, if_neg hne2]
    have := calculateLatencyScore_antitone h12
    linarith
  · simp only [scorePeer, jsOptNum]
    rw [if_neg (by norm_num : ¬ (999 : ℚ) = 0)]
  · intro u1 u2 h
    have e1 : (if u1 = 0 then (0 : ℚ) else u1) = u1 := by split_ifs with hh <;> simp [hh]
    have e2 : (if u2 = 0 then (0 : ℚ) else u2) = u2 := by split_ifs with hh <;> simp [hh]
    simp only [scorePeer, jsOptNum, jsMin]
    rw [e1, e2]
    split_ifs <;> linarith

/-- Witness for C2 (amended) at rtt 60 versus 150 ms. -/
theorem C2_witness :
    (scorePeer { pdBase with rttHint := some 150 } [] none).score ≤
      (scorePeer { pdBase with rttHint := some 60 } [] none).score :=
  (C2_score_monotonicity pdBase [] none).1 60 150 (by norm_num) (by norm_num)

/-- C10: for every peer record with the non-negative upload capacity the
data model prescribes, the total score lies between 5 and 200 inclusive and
equals the sum of the five reported factor values. -/
theorem C10_score_bounds (peer : PeerData) (needed : List ℕ) (reg : Option String)
    (h : 0 ≤ peer.upCap) :
    5 ≤ (scorePeer peer needed reg).score ∧
    (scorePeer peer needed reg).score ≤ 200 ∧
    (scorePeer peer needed reg).score =
      (scorePeer peer needed reg).factors.hasNeeded +
        (scorePeer peer needed reg).factors.region +
        (scorePeer peer needed reg).factors.latency +
        (scorePeer peer needed reg).factors.capacity +
        (scorePeer peer needed reg).factors.completion := by
  have hlat := calculateLatencyScore_bounds (jsOptNum peer.rttHint 999)
  have hcap : 0 ≤ jsMin (jsOptNum (some peer.upCap) 0 / 1024 / 1024) 20 ∧
      jsMin (jsOptNum (some peer.upCap) 0 / 1024 / 1024) 20 ≤ 20 := by
    simp only [jsMin, jsOptNum]
    constructor <;> (split_ifs <;> linarith)
  refine ⟨?_, ?_, ?_⟩
  · simp only [scorePeer]
    split_ifs <;> linarith [hlat.1, hcap.1]
  · simp only [scorePeer]
    split_ifs <;> linarith [hlat.2, hcap.2]
  · simp only [scorePeer]

/-- Witness for C10 on the baseline peer. -/
theorem C10_witness :
    5 ≤ (scorePeer pdBase [] none).score ∧ (scorePeer pdBase [] none).score ≤ 200 :=
  ⟨(C10_score_bounds pdBase [] none (by norm_num [pdBase])).1,
    (C10_score_bounds pdBase [] none (by norm_num [pdBase])).2.1⟩

/-! ## Selection (C3) -/

theorem getRecord_some {st : Store} {m p : String} {now : ℕ} {pd : PeerData}
    (h : getRecord st m p now = some pd) :
    ∃ e, alGet st.records (m, p) = some (pd, e) ∧ now < e := by
  unfold getRecord at h
  split at h
  · rename_i pd0 e halg
    split at h
    · rename_i hlt
      simp only [Option.some.injEq] at h
      subst h
      exact ⟨e, halg, hlt⟩
    · simp at h
  · simp at h

/-- C3: for every store whose records carry their own peerId (as every
record written by announce or complete does), every manifest, needed list,
region and exclusion set, a successful selection returns at most the
configured maximum number of peers, in non-increasing score order, and
no returned peerId lies in the exclusion set. -/
theorem C3_selection (cfg : Config) (st : Store) (now : ℕ) (req : GetPeersRequest)
    (hinv : ∀ (k : String × String) (pd : PeerData) (e : ℕ),
      alGet st.records k = some (pd, e) → pd.peerId = k.2)
    (resp : GetPeersResponse) (hok : (getPeers cfg st now req).2 = .ok resp) :
    resp.peers.length ≤ cfg.MAX_PEERS_RESPONSE ∧
    (resp.peers.map (·.score)).Pairwise (· ≥ ·) ∧
    ∀ p ∈ resp.peers, ¬ p.peerId ∈ req.excludePeers.getD [] := by
  simp only [getPeers] at hok
  split at hok
  · simp at hok
  · split at hok
    · simp only [Except.ok.injEq] at hok
      subst hok
      simp
    · split at hok
      · next peers hproj =>
        simp only [Except.ok.injEq] at hok
        subst hok
        have hscore := projectPeers_map_score _ _ _ hproj
        refine ⟨?_, ?_, ?_⟩
        · show peers.length ≤ cfg.MAX_PEERS_RESPONSE
          have hl := congrArg List.length hscore
          simp at hl
          rw [hl]
          exact inf_le_left
        · have hsorted : (((sortPeersByScore
              ((fetchLoop (req.manifestId.getD "") now st
                ((smembers st (req.manifestId.getD "") now).filter fun pid =>
                  decide (¬ pid ∈ req.excludePeers.getD []))).2.map fun peer =>
                    scorePeer peer (req.neededChunks.getD []) req.region)).take
                      cfg.MAX_PEERS_RESPONSE)).Pairwise scoreGE :=
            List.Pairwise.sublist (List.take_sublist _ _) (sortPeersByScore_sorted _)
          show (peers.map (·.score)).Pairwise (· ≥ ·)
          rw [hscore]
          exact List.pairwise_map.mpr (hsorted.imp (fun h => h))
        · intro p hp
          obtain ⟨pd, hpd, hpeq⟩ := projectPeers_mem _ _ _ hproj p hp
          obtain ⟨pid, hpidmem, hget⟩ := fetchLoop_mem _ _ _ _ _ hpd
          obtain ⟨e, halg, _⟩ := getRecord_some hget
          have hid := hinv _ _ _ halg
          have hmem := List.mem_filter.1 hpidmem
          rw [hpeq, hid]
          simpa using hmem.2
      · simp at hok

/-- Witness for C3 on a store with one live peer, one stale member and one
excluded member. -/
theorem C3_witness :
    respSel.peers.length ≤ defaultConfig.MAX_PEERS_RESPONSE ∧
    (respSel.peers.map (·.score)).Pairwise (· ≥ ·) ∧
    ∀ p ∈ respSel.peers, ¬ p.peerId ∈ reqSel.excludePeers.getD [] :=
  C3_selection defaultConfig stSel 10 reqSel
    (by
      intro k pd e halg
      simp only [stSel, alGet] at halg
      split at halg
      · next heq =>
        simp only [Option.some.injEq, Prod.mk.injEq] at halg
        rw [← heq, ← halg.1]
        rfl
      · simp at halg)
    respSel rfl

/-! ## Announce (C4, C6) -/

/-- A validated announce runs the store pipeline: write the rebuilt record,
add membership, then extend the set expiry when missing or shorter. -/
theorem announce_unfold (cfg : Config) (st : Store) (now : ℕ) (req : AnnounceRequest)
    (hreq : truthyS req.clientId ∧ truthyS req.manifestId ∧ truthyS req.chunkBitfield) :
    announce cfg st now req =
      (let st1 := setRecord st (req.manifestId.getD "") (req.clientId.getD "")
        { peerId := req.clientId.getD ""
          manifestId := req.manifestId.getD ""
          chunkBitfield := req.chunkBitfield.getD ""
          upCap := jsOptNum req.upCap 0
          region := req.region
          rttHint := req.rttHint
          version := req.version
          lastSeen := now
          isComplete := false } (now + cfg.PEER_TTL)
       let st2 := sadd st1 (req.manifestId.getD "") (req.clientId.getD "") now
       let st3 :=
         if ttlCmd st2 (req.manifestId.getD "") now = -1 ∨
             ttlCmd st2 (req.manifestId.getD "") now < (cfg.PEER_TTL : ℤ) then
           expireCmd st2 (req.manifestId.getD "") now cfg.PEER_TTL
         else st2
       (st3, .ok { success := true, peerId := req.clientId.getD "", ttl := cfg.PEER_TTL })) := by
  unfold announce
  rw [if_neg (fun hn => hn hreq)]

theorem getSetLive_some {st : Store} {m : String} {now : ℕ} {s : SetData}
    (h : getSetLive st m now = some s) : alGet st.sets m = some s := by
  unfold getSetLive at h
  split at h
  · rename_i s0 halg
    split at h
    · rename_i e hexp
      split at h
      · simp only [Option.some.injEq] at h
        exact h ▸ halg
      · simp at h
    · rename_i hexp
      simp only [Option.some.injEq] at h
      exact h ▸ halg
  · simp at h

/-- C4 counterexample: a record already marked complete loses the flag on
re-announce, since announce rewrites the whole record with isComplete false. -/
theorem C4_counterexample :
    pdSeed.isComplete = true ∧
    (alGet (announce defaultConfig stSeed 10 reqSeed).1.records ("m", "p")).map
      (fun x => x.1.isComplete) = some false :=
  ⟨rfl, rfl⟩

/-- C4 (amended): re-announcing the same (manifestId, peerId) before its TTL
lapses keeps the peerId, refreshes lastSeen and expiry, does not duplicate
the membership entry, and replaces the record with the supplied fields; the
isComplete flag is reset to false by the rewrite, so a previously set flag
does not survive. -/
theorem C4_reannounce (cfg : Config) (st : Store) (now : ℕ) (req : AnnounceRequest)
    (hreq : truthyS req.clientId ∧ truthyS req.manifestId ∧ truthyS req.chunkBitfield)
    (old : PeerData) (e : ℕ)
    (_hold : alGet st.records (req.manifestId.getD "", req.clientId.getD "") = some (old, e))
    (_hlive : now < e) (hid : old.peerId = req.clientId.getD "")
    (s : SetData) (hset : getSetLive st (req.manifestId.getD "") now = some s)
    (hmem : req.clientId.getD "" ∈ s.members) :
    (announce cfg st now req).2 =
      .ok { success := true, peerId := old.peerId, ttl := cfg.PEER_TTL } ∧
    alGet (announce cfg st now req).1.records
        (req.manifestId.getD "", req.clientId.getD "") =
      some ({ peerId := old.peerId
              manifestId := req.manifestId.getD ""
              chunkBitfield := req.chunkBitfield.getD ""
              upCap := jsOptNum req.upCap 0
              region := req.region
              rttHint := req.rttHint
              version := req.version
              lastSeen := now
              isComplete := false }, now + cfg.PEER_TTL) ∧
    ∃ s', alGet (announce cfg st now req).1.sets (req.manifestId.getD "") = some s' ∧
      s'.members = s.members := by
  rw [announce_unfold cfg st now req hreq]
  have hset1 : getSetLive (setRecord st (req.manifestId.getD "") (req.clientId.getD "")
      { peerId := req.clientId.getD ""
        manifestId := req.manifestId.getD ""
        chunkBitfield := req.chunkBitfield.getD ""
        upCap := jsOptNum req.upCap 0
        region := req.region
        rttHint := req.rttHint
        version := req.version
        lastSeen := now
        isComplete := false } (now + cfg.PEER_TTL)) (req.manifestId.getD "") now = some s :=
    (getSetLive_eq_of_sets rfl _ _).trans hset
  have hsadd : sadd (setRecord st (req.manifestId.getD "") (req.clientId.getD "")
      { peerId := req.clientId.getD ""
        manifestId := req.manifestId.getD ""
        chunkBitfield := req.chunkBitfield.getD ""
        upCap := jsOptNum req.upCap 0
        region := req.region
        rttHint := req.rttHint
        version := req.version
        lastSeen := now
        isComplete := false } (now + cfg.PEER_TTL)) (req.manifestId.getD "")
      (req.clientId.getD "") now = setRecord st (req.manifestId.getD "")
        (req.clientId.getD "")
      { peerId := req.clientId.getD ""
        manifestId := req.manifestId.getD ""
        chunkBitfield := req.chunkBitfield.getD ""
        upCap := jsOptNum req.upCap 0
        region := req.region
        rttHint := req.rttHint
        version := req.version
        lastSeen := now
        isComplete := false } (now + cfg.PEER_TTL) := by
    unfold sadd
    rw [hset1]
    simp [hmem]
  dsimp only
  rw [hsadd]
  refine ⟨by rw [hid], ?_, ?_⟩
  · rw [← hid]
    split
    · rw [expireCmd_records]
      exact alGet_alSet_self _ _ _
    · exact alGet_alSet_self _ _ _
  · split
    · unfold expireCmd
      rw [hset1]
      exact ⟨{ s with expiry := some (now + cfg.PEER_TTL) }, alGet_alSet_self _ _ _, rfl⟩
    · exact ⟨s, (by exact getSetLive_some hset1 : alGet _ _ = some s), rfl⟩

/-- Witness for C4 (amended) on the seeded store. -/
theorem C4_witness :
    (announce defaultConfig stSeed 10 reqSeed).2 =
      .ok { success := true, peerId := pdSeed.peerId, ttl := defaultConfig.PEER_TTL } ∧
    alGet (announce defaultConfig stSeed 10 reqSeed).1.records ("m", "p") =
      some ({ peerId := pdSeed.peerId, manifestId := "m", chunkBitfield := "ff",
              upCap := 0, region := none, rttHint := none, version := none,
              lastSeen := 10, isComplete := false }, 10 + defaultConfig.PEER_TTL) ∧
    ∃ s', alGet (announce defaultConfig stSeed 10 reqSeed).1.sets "m" = some s' ∧
      s'.members = ["p"] :=
  C4_reannounce defaultConfig stSeed 10 reqSeed (by decide) pdSeed 100 (by decide)
    (by decide) rfl { members := ["p"], expiry := some 100 } (by decide) (by decide)

/-! ## Mark complete (C5) -/

/-- C5: with valid inputs, markComplete fails with NotFound and leaves the
whole store unchanged when no live record exists; when one does, it rewrites
exactly that record with isComplete set, lastSeen refreshed and the standard
TTL, leaving every other field, every other key, the sets and the signals
unchanged. -/
theorem C5_markComplete (cfg : Config) (st : Store) (now : ℕ) (req : CompleteRequest)
    (hreq : truthyS req.clientId ∧ truthyS req.manifestId) :
    (getRecord st (req.manifestId.getD "") (req.clientId.getD "") now = none →
      complete cfg st now req = (st, .error .notFound)) ∧
    ∀ old, getRecord st (req.manifestId.getD "") (req.clientId.getD "") now = some old →
      (complete cfg st now req).2 = .ok true ∧
      alGet (complete cfg st now req).1.records
          (req.manifestId.getD "", req.clientId.getD "") =
        some ({ old with isComplete := true, lastSeen := now }, now + cfg.PEER_TTL) ∧
      (∀ k, k ≠ (req.manifestId.getD "", req.clientId.getD "") →
        alGet (complete cfg st now req).1.records k = alGet st.records k) ∧
      (complete cfg st now req).1.sets = st.sets ∧
      (complete cfg st now req).1.signals = st.signals := by
  have hu : complete cfg st now req =
      (match getRecord st (req.manifestId.getD "") (req.clientId.getD "") now with
        | none => (st, .error .notFound)
        | some pd =>
          (setRecord st (req.manifestId.getD "") (req.clientId.getD "")
            { pd with isComplete := true, lastSeen := now } (now + cfg.PEER_TTL), .ok true)) := by
    unfold complete
    rw [if_neg (fun hn => hn hreq)]
  constructor
  · intro hn
    rw [hu, hn]
  · intro old hsome
    rw [hu, hsome]
    refine ⟨rfl, alGet_alSet_self _ _ _, ?_, rfl, rfl⟩
    intro k hk
    exact alGet_alSet_ne _ _ _ _ hk

/-- Witness for C5: marking the seeded peer complete rewrites its record. -/
theorem C5_witness :
    (complete defaultConfig stSeed 10 { clientId := some "p", manifestId := some "m" }).2 =
      .ok true ∧
    alGet (complete defaultConfig stSeed 10
        { clientId := some "p", manifestId := some "m" }).1.records ("m", "p") =
      some ({ pdSeed with isComplete := true, lastSeen := 10 }, 10 + defaultConfig.PEER_TTL) := by
  have h := (C5_markComplete defaultConfig stSeed 10
    { clientId := some "p", manifestId := some "m" } (by decide)).2 pdSeed (by decide)
  exact ⟨h.1, h.2.1⟩

/-! ## Membership-set expiry extension (C6) -/

theorem remainingTTL_of_alGet {st : Store} {m : String} {now : ℕ} {mem : List String}
    {e : ℕ} (h : alGet st.sets m = some ⟨mem, some e⟩) :
    remainingTTL st m now = e - now := by
  unfold remainingTTL getSetLive
  rw [h]
  by_cases hlt : now < e
  · simp [hlt]
  · simp only [if_neg hlt]
    omega

theorem remainingTTL_of_none {st : Store} {m : String} {now : ℕ}
    (h : getSetLive st m now = none) : remainingTTL st m now = 0 := by
  unfold remainingTTL
  rw [h]

theorem getSetLive_expiry_lt {st : Store} {m : String} {now : ℕ} {s : SetData} {e : ℕ}
    (h : getSetLive st m now = some s) (he : s.expiry = some e) : now < e := by
  unfold getSetLive at h
  split at h
  · rename_i s0 halg
    split at h
    · rename_i e0 hexp
      split at h
      · rename_i hlt
        simp only [Option.some.injEq] at h
        subst h
        rw [hexp] at he
        simp only [Option.some.injEq] at he
        omega
      · simp at h
    · rename_i hexp
      simp only [Option.some.injEq] at h
      subst h
      rw [hexp] at he
      simp at he
  · simp at h

theorem remainingTTL_eq_of_sets {st1 st2 : Store} (h : st1.sets = st2.sets)
    (m : String) (now : ℕ) : remainingTTL st1 m now = remainingTTL st2 m now := by
  unfold remainingTTL
  rw [getSetLive_eq_of_sets h]

/-- The membership part of the announce pipeline (sadd, ttl, conditional
expire) on any store whose set for the manifest, when present, has a finite
expiry: the remaining TTL afterwards is the maximum of the previous one and
the configured TTL. -/
theorem setPipeline (ttl : ℕ) (st1 : Store) (m p : String) (now : ℕ)
    (hfin : ∀ s, alGet st1.sets m = some s → s.expiry.isSome) :
    remainingTTL (if ttlCmd (sadd st1 m p now) m now = -1 ∨
        ttlCmd (sadd st1 m p now) m now < (ttl : ℤ) then
      expireCmd (sadd st1 m p now) m now ttl else sadd st1 m p now) m now =
    max (remainingTTL st1 m now) ttl := by
  cases hls : getSetLive st1 m now with
  | none =>
    have hs2 : alGet (sadd st1 m p now).sets m =
        some { members := [p], expiry := none } := by
      unfold sadd
      rw [hls]
      exact alGet_alSet_self _ _ _
    have hls2 : getSetLive (sadd st1 m p now) m now =
        some { members := [p], expiry := none } := by
      unfold getSetLive
      rw [hs2]
    have httl : ttlCmd (sadd st1 m p now) m now = -1 := by
      unfold ttlCmd
      rw [hls2]
    rw [httl, if_pos (Or.inl rfl)]
    have hexp : (expireCmd (sadd st1 m p now) m now ttl).sets =
        alSet (sadd st1 m p now).sets m { members := [p], expiry := some (now + ttl) } := by
      unfold expireCmd
      rw [hls2]
    have hfinal : alGet (expireCmd (sadd st1 m p now) m now ttl).sets m =
        some { members := [p], expiry := some (now + ttl) } := by
      rw [hexp]
      exact alGet_alSet_self _ _ _
    rw [remainingTTL_of_alGet hfinal, remainingTTL_of_none hls]
    omega
  | some s =>
    obtain ⟨mems, sexp⟩ := s
    obtain ⟨e, he⟩ : ∃ e, sexp = some e := by
      have hi := hfin _ (getSetLive_some hls)
      simpa [Option.isSome_iff_exists] using hi
    subst he
    have hlt : now < e := getSetLive_expiry_lt hls rfl
    have hbefore : remainingTTL st1 m now = e - now :=
      remainingTTL_of_alGet (getSetLive_some hls)
    have hs2 : ∃ mem2, alGet (sadd st1 m p now).sets m =
        some { members := mem2, expiry := some e } := by
      unfold sadd
      rw [hls]
      dsimp only
      by_cases hmem : p ∈ mems
      · rw [if_pos hmem]
        exact ⟨mems, getSetLive_some hls⟩
      · rw [if_neg hmem]
        exact ⟨mems ++ [p], alGet_alSet_self _ _ _⟩
    obtain ⟨mem2, hs2⟩ := hs2
    have hls2 : getSetLive (sadd st1 m p now) m now =
        some { members := mem2, expiry := some e } := by
      unfold getSetLive
      rw [hs2]
      simp [hlt]
    have httl : ttlCmd (sadd st1 m p now) m now = (e : ℤ) - (now : ℤ) := by
      unfold ttlCmd
      rw [hls2]
    rw [httl]
    by_cases hcond : (e : ℤ) - (now : ℤ) = -1 ∨ (e : ℤ) - (now : ℤ) < (ttl : ℤ)
    · rw [if_pos hcond]
      have hexp : (expireCmd (sadd st1 m p now) m now ttl).sets =
          alSet (sadd st1 m p now).sets m
            { members := mem2, expiry := some (now + ttl) } := by
        unfold expireCmd
        rw [hls2]
      have hfinal : alGet (expireCmd (sadd st1 m p now) m now ttl).sets m =
          some { members := mem2, expiry := some (now + ttl) } := by
        rw [hexp]
        exact alGet_alSet_self _ _ _
      rw [remainingTTL_of_alGet hfinal, hbefore]
      omega
    · rw [if_neg hcond]
      rw [remainingTTL_of_alGet hs2, hbefore]
      omega

/-- C6: with valid inputs, and on any store where the manifest membership
set (when present) carries a finite expiry, as every set written by announce
does, the announce upsert leaves the set with remaining TTL equal to the
maximum of its previous remaining TTL and the record TTL: the expiry is
never shortened and is at least the TTL written with the peer record. -/
theorem C6_expiry_extension (cfg : Config) (st : Store) (now : ℕ) (req : AnnounceRequest)
    (hreq : truthyS req.clientId ∧ truthyS req.manifestId ∧ truthyS req.chunkBitfield)
    (hfin : ∀ s, alGet st.sets (req.manifestId.getD "") = some s → s.expiry.isSome) :
    remainingTTL (announce cfg st now req).1 (req.manifestId.getD "") now =
      max (remainingTTL st (req.manifestId.getD "") now) cfg.PEER_TTL ∧
    remainingTTL st (req.manifestId.getD "") now ≤
      remainingTTL (announce cfg st now req).1 (req.manifestId.getD "") now ∧
    cfg.PEER_TTL ≤ remainingTTL (announce cfg st now req).1 (req.manifestId.getD "") now := by
  suffices h : remainingTTL (announce cfg st now req).1 (req.manifestId.getD "") now =
      max (remainingTTL st (req.manifestId.getD "") now) cfg.PEER_TTL by
    refine ⟨h, ?_, ?_⟩ <;> rw [h] <;> omega
  rw [announce_unfold cfg st now req hreq]
  dsimp only
  rw [setPipeline cfg.PEER_TTL
    (setRecord st (req.manifestId.getD "") (req.clientId.getD "")
      { peerId := req.clientId.getD "", manifestId := req.manifestId.getD ""
        chunkBitfield := req.chunkBitfield.getD "", upCap := jsOptNum req.upCap 0
        region := req.region, rttHint := req.rttHint, version := req.version
        lastSeen := now, isComplete := false } (now + cfg.PEER_TTL))
    (req.manifestId.getD "") (req.clientId.getD "") now (fun s h => hfin s h)]
  rw [@remainingTTL_eq_of_sets
    (setRecord st (req.manifestId.getD "") (req.clientId.getD "")
      { peerId := req.clientId.getD "", manifestId := req.manifestId.getD ""
        chunkBitfield := req.chunkBitfield.getD "", upCap := jsOptNum req.upCap 0
        region := req.region, rttHint := req.rttHint, version := req.version
        lastSeen := now, isComplete := false } (now + cfg.PEER_TTL))
    st rfl (req.manifestId.getD "") now]

/-- Witness for C6 on the seeded store: a remaining TTL of 90 is extended
to the full 300. -/
theorem C6_witness :
    remainingTTL (announce defaultConfig stSeed 10 reqSeed).1 "m" 10 =
      max (remainingTTL stSeed "m" 10) defaultConfig.PEER_TTL ∧
    remainingTTL stSeed "m" 10 ≤
      remainingTTL (announce defaultConfig stSeed 10 reqSeed).1 "m" 10 ∧
    defaultConfig.PEER_TTL ≤
      remainingTTL (announce defaultConfig stSeed 10 reqSeed).1 "m" 10 :=
  C6_expiry_extension defaultConfig stSeed 10 reqSeed (by decide)
    (by
      intro s h
      rw [show alGet stSeed.sets (reqSeed.manifestId.getD "") =
        some (⟨["p"], some 100⟩ : SetData) from rfl] at h
      injection h with h2
      rw [← h2]
      rfl)

/-! ## Signal relay (C7, C8, C9) -/

theorem listStartsWith_append : ∀ xs ys : List Char, listStartsWith xs (xs ++ ys) = true := by
  intro xs
  induction xs with
  | nil => intro ys; rfl
  | cons c t ih => intro ys; simp [listStartsWith, ih]

/-- A valid signal request stores its message under the
(recipient, sender, timestamp) key with a 30 second TTL. -/
theorem signalOp_unfold (st : Store) (now : ℕ) (sender : String) (req : SignalRequest)
    (ty recipient : String) (hty : req.type = some ty) (hto : req.«to» = some recipient)
    (hrec : recipient ≠ "") (hmem : ty ∈ ["offer", "answer", "ice-candidate"]) :
    signalOp st now sender req =
      ({ st with signals := alSet st.signals (signalKeyOf recipient sender now) ({
          type := ty, «from» := sender, «to» := recipient, data := req.data,
          timestamp := now }, now + 30) }, .ok true) := by
  have htruthy : ty ≠ "" := by
    simp only [List.mem_cons, List.not_mem_nil, or_false] at hmem
    rcases hmem with h | h | h <;> subst h <;> decide
  unfold signalOp
  simp only [hty, hto, Option.getD_some]
  rw [if_neg (not_not_intro ⟨by simp [truthyS, htruthy], by simp [truthyS, hrec]⟩),
    if_neg (not_not_intro hmem)]

/-- C7 counterexample: two successive messages from the same sender to the
same recipient in the same millisecond share their key, so the second
overwrites the first and only one pending entry remains, holding the second
payload. -/
theorem C7_counterexample :
    (signalOp (signalOp emptyStore 5 "A"
        { type := some "offer", «to» := some "B", data := some "P1" }).1 5 "A"
        { type := some "offer", «to» := some "B", data := some "P2" }).1.signals.length = 1 ∧
    (alGet (signalOp (signalOp emptyStore 5 "A"
        { type := some "offer", «to» := some "B", data := some "P1" }).1 5 "A"
        { type := some "offer", «to» := some "B", data := some "P2" }).1.signals
        (signalKeyOf "B" "A" 5)).map (fun x => x.1.data) = some (some "P2") :=
  ⟨rfl, rfl⟩

/-- C7 (amended): messages to the same recipient are stored under the
(recipient, sender, timestamp) key, which differs whenever the senders
differ or the timestamps differ, so neither message overwrites the other;
two messages from the same sender in the same millisecond share the key and
the later one overwrites the earlier. -/
theorem C7_key_uniqueness (st : Store) (recipient s1 s2 : String) (t1 t2 : ℕ)
    (r1 r2 : SignalRequest) (ty1 ty2 : String)
    (hty1 : r1.type = some ty1) (hto1 : r1.«to» = some recipient)
    (hmem1 : ty1 ∈ ["offer", "answer", "ice-candidate"])
    (hty2 : r2.type = some ty2) (hto2 : r2.«to» = some recipient)
    (hmem2 : ty2 ∈ ["offer", "answer", "ice-candidate"])
    (hrec : recipient ≠ "") (hdiff : s1 ≠ s2 ∨ t1 ≠ t2) :
    signalKeyOf recipient s1 t1 ≠ signalKeyOf recipient s2 t2 ∧
    alGet (signalOp (signalOp st t1 s1 r1).1 t2 s2 r2).1.signals
        (signalKeyOf recipient s1 t1) =
      some ({ type := ty1, «from» := s1, «to» := recipient, data := r1.data,
              timestamp := t1 }, t1 + 30) ∧
    alGet (signalOp (signalOp st t1 s1 r1).1 t2 s2 r2).1.signals
        (signalKeyOf recipient s2 t2) =
      some ({ type := ty2, «from» := s2, «to» := recipient, data := r2.data,
              timestamp := t2 }, t2 + 30) := by
  have hkey : signalKeyOf recipient s1 t1 ≠ signalKeyOf recipient s2 t2 := by
    intro he
    have hinj := signalKeyOf_inj he
    rcases hdiff with h | h
    · exact h hinj.1
    · exact h hinj.2
  rw [signalOp_unfold st t1 s1 r1 ty1 recipient hty1 hto1 hrec hmem1]
  rw [signalOp_unfold _ t2 s2 r2 ty2 recipient hty2 hto2 hrec hmem2]
  exact ⟨hkey, (alGet_alSet_ne _ _ _ _ hkey).trans (alGet_alSet_self _ _ _),
    alGet_alSet_self _ _ _⟩

/-- Witness for C7 (amended): two senders relay to B in the same millisecond
and both messages stay pending. -/
theorem C7_witness :
    signalKeyOf "B" "A" 5 ≠ signalKeyOf "B" "C" 5 ∧
    alGet (signalOp (signalOp emptyStore 5 "A"
        { type := some "offer", «to» := some "B", data := some "P1" }).1 5 "C"
        { type := some "answer", «to» := some "B", data := some "P2" }).1.signals
        (signalKeyOf "B" "A" 5) =
      some ({ type := "offer", «from» := "A", «to» := "B", data := some "P1",
              timestamp := 5 }, 5 + 30) ∧
    alGet (signalOp (signalOp emptyStore 5 "A"
        { type := some "offer", «to» := some "B", data := some "P1" }).1 5 "C"
        { type := some "answer", «to» := some "B", data := some "P2" }).1.signals
        (signalKeyOf "B" "C" 5) =
      some ({ type := "answer", «from» := "C", «to» := "B", data := some "P2",
              timestamp := 5 }, 5 + 30) :=
  C7_key_uniqueness emptyStore "B" "A" "C" 5 5
    { type := some "offer", «to» := some "B", data := some "P1" }
    { type := some "answer", «to» := some "B", data := some "P2" }
    "offer" "answer" rfl rfl (by decide) rfl rfl (by decide) (by decide)
    (Or.inl (by decide))

/-- C8 counterexample: a signal with no payload at all is accepted and
stored, so a missing payload does not cause InvalidRequest. -/
theorem C8_counterexample :
    (signalOp emptyStore 5 "A"
        { type := some "offer", «to» := some "B", data := none }).2 = .ok true ∧
    (signalOp emptyStore 5 "A"
        { type := some "offer", «to» := some "B",
          data := none }).1.signals.length = 1 :=
  ⟨rfl, rfl⟩

/-- C8 (amended): the signal operation fails with InvalidRequest, before any
store write, whenever type or to is missing or falsy or type is not one of
offer, answer, ice-candidate; the payload field is not validated. -/
theorem C8_validation (st : Store) (now : ℕ) (sender : String) (r : SignalRequest)
    (h : ¬ truthyS r.type ∨ ¬ truthyS r.«to» ∨
      ¬ r.type.getD "" ∈ ["offer", "answer", "ice-candidate"]) :
    signalOp st now sender r = (st, .error .invalidRequest) := by
  unfold signalOp
  by_cases h1 : truthyS r.type ∧ truthyS r.«to»
  · rw [if_neg (not_not_intro h1)]
    have h3 : ¬ r.type.getD "" ∈ ["offer", "answer", "ice-candidate"] := by
      rcases h with h | h | h
      · exact absurd h1.1 h
      · exact absurd h1.2 h
      · exact h
    rw [if_pos h3]
  · rw [if_pos h1]

/-- Witness for C8 (amended): an unknown signal type is rejected with no
store write. -/
theorem C8_witness :
    signalOp emptyStore 5 "A" { type := some "hello", «to» := some "B", data := some "P" } =
      (emptyStore, .error .invalidRequest) :=
  C8_validation emptyStore 5 "A"
    { type := some "hello", «to» := some "B", data := some "P" }
    (Or.inr (Or.inr (by decide)))

theorem drainLoop_single (now : ℕ) (st : Store) (k : List Char) (msg : SignalMessage)
    (e : ℕ) (h : alGet st.signals k = some (msg, e)) (hlive : now < e) :
    drainLoop now st [k] = ({ st with signals := alDel st.signals k }, [msg]) := by
  unfold drainLoop
  rw [h]
  dsimp only
  rw [if_pos hlive]
  rfl

theorem pollSignals_empty (st : Store) (now : ℕ) (cid : String) (hB : ¬ cid = "")
    (hall : ∀ e ∈ st.signals,
      (listStartsWith ("signal:".data ++ cid.data ++ [':']) e.1 &&
        decide (now < e.2.2)) = false) :
    pollSignals st now cid = (st, .ok []) := by
  unfold pollSignals
  rw [if_neg hB]
  have hnil : st.signals.filter (fun e =>
      listStartsWith ("signal:".data ++ cid.data ++ [':']) e.1 &&
        decide (now < e.2.2)) = [] :=
    List.filter_eq_nil_iff.mpr (fun e he => by rw [hall e he]; exact Bool.false_ne_true)
  dsimp only
  rw [hnil]
  rfl

theorem pollSignals_single (st : Store) (now : ℕ) (cid : String) (hB : ¬ cid = "")
    (k : List Char) (msg : SignalMessage) (e : ℕ)
    (hfilter : st.signals.filter (fun e2 =>
      listStartsWith ("signal:".data ++ cid.data ++ [':']) e2.1 &&
        decide (now < e2.2.2)) = [(k, (msg, e))])
    (hget : alGet st.signals k = some (msg, e)) (hlive : now < e) :
    pollSignals st now cid = ({ st with signals := alDel st.signals k }, .ok [msg]) := by
  unfold pollSignals
  rw [if_neg hB]
  dsimp only
  rw [hfilter]
  dsimp only [List.map]
  rw [drainLoop_single now st k msg e hget hlive]

/-- C9: starting from an empty mailbox for B, a signal of type offer from A
with payload P followed by a poll for B returns exactly that one message,
deletes it, and an immediately following second poll returns the empty
list. -/
theorem C9_signal_roundtrip (st : Store) (now : ℕ) (A B : String) (P : Option String)
    (hB : B ≠ "")
    (hempty : ∀ e ∈ st.signals,
      listStartsWith ("signal:".data ++ B.data ++ [':']) e.1 = true → ¬ now < e.2.2) :
    (signalOp st now A { type := some "offer", «to» := some B, data := P }).2 = .ok true ∧
    (pollSignals (signalOp st now A
        { type := some "offer", «to» := some B, data := P }).1 now B).2 =
      .ok [{ type := "offer", «from» := A, «to» := B, data := P, timestamp := now }] ∧
    (pollSignals (pollSignals (signalOp st now A
        { type := some "offer", «to» := some B, data := P }).1 now B).1 now B).2 =
      .ok [] := by
  have hop := signalOp_unfold st now A
    { type := some "offer", «to» := some B, data := P } "offer" B rfl rfl hB (by decide)
  have hall : ∀ e ∈ st.signals,
      (listStartsWith ("signal:".data ++ B.data ++ [':']) e.1 &&
        decide (now < e.2.2)) = false := by
    intro e he
    cases hpre : listStartsWith ("signal:".data ++ B.data ++ [':']) e.1 with
    | false => simp [hpre]
    | true => simp [hpre, hempty e he hpre]
  have hpkey : (listStartsWith ("signal:".data ++ B.data ++ [':'])
      (signalKeyOf B A now) && decide (now < now + 30)) = true := by
    have hk : signalKeyOf B A now =
        ("signal:".data ++ B.data ++ [':']) ++ (A.data ++ ([':'] ++ natChars now)) := by
      simp [signalKeyOf, List.append_assoc]
    rw [hk, listStartsWith_append]
    simp
  have hfilter := alSet_filter_eq
    (fun e2 => listStartsWith ("signal:".data ++ B.data ++ [':']) e2.1 &&
      decide (now < e2.2.2))
    st.signals (signalKeyOf B A now)
    ({ type := "offer", «from» := A, «to» := B, data := P, timestamp := now }, now + 30)
    hall hpkey
  have hpoll1 := pollSignals_single
    ⟨st.records, st.sets, alSet st.signals (signalKeyOf B A now)
      ({ type := "offer", «from» := A, «to» := B, data := P, timestamp := now }, now + 30)⟩
    now B hB (signalKeyOf B A now)
    { type := "offer", «from» := A, «to» := B, data := P, timestamp := now } (now + 30)
    hfilter (alGet_alSet_self _ _ _) (by omega)
  have hall2 : ∀ e ∈ (alDel (alSet st.signals (signalKeyOf B A now)
      ({ type := "offer", «from» := A, «to» := B, data := P, timestamp := now }, now + 30))
      (signalKeyOf B A now)),
      (listStartsWith ("signal:".data ++ B.data ++ [':']) e.1 &&
        decide (now < e.2.2)) = false := by
    intro e he
    unfold alDel at he
    have hm := List.mem_filter.1 he
    have hne : e.1 ≠ signalKeyOf B A now := by simpa using hm.2
    rcases mem_alSet hm.1 with heq | hmem
    · exact absurd (congrArg Prod.fst heq) hne
    · exact hall e hmem
  have hpoll2 := pollSignals_empty
    ⟨st.records, st.sets, alDel (alSet st.signals (signalKeyOf B A now)
      ({ type := "offer", «from» := A, «to» := B, data := P, timestamp := now }, now + 30))
      (signalKeyOf B A now)⟩ now B hB hall2
  rw [hop]
  dsimp only
  refine ⟨rfl, congrArg Prod.snd hpoll1, ?_⟩
  rw [hpoll1]
  dsimp only
  exact congrArg Prod.snd hpoll2

/-- Witness for C9 on the empty store. -/
theorem C9_witness :
    (signalOp emptyStore 5 "A"
        { type := some "offer", «to» := some "B", data := some "P" }).2 = .ok true ∧
    (pollSignals (signalOp emptyStore 5 "A"
        { type := some "offer", «to» := some "B", data := some "P" }).1 5 "B").2 =
      .ok [{ type := "offer", «from» := "A", «to» := "B", data := some "P",
             timestamp := 5 }] ∧
    (pollSignals (pollSignals (signalOp emptyStore 5 "A"
        { type := some "offer", «to» := some "B", data := some "P" }).1 5 "B").1 5 "B").2 =
      .ok [] :=
  C9_signal_roundtrip emptyStore 5 "A" "B" (some "P") (by decide)
    (by intro e he _; exact absurd he (by simp [emptyStore]))

end HadesSignaling
